import Mathlib

/-!
Verification of the import-grouping lint rule (`main.go`, package
`gogroupimports`).

The Go source is embedded shallowly:

* `Settings` mirrors the `Settings` struct (`selfModule`,
  `internalPrivateDomains`).
* `ImportRecord` is one parsed import spec, in file order, with the
  1-based line numbers the `token.FileSet` resolves for it.  Producing
  this sequence (parsing, unquoting) is the external collaborator's job.
* `getImportType`, `isInternalPrivateImport`, `getImportGroups`,
  `areImportsGrouped` and the spacing loop of `Run` are translated
  function by function.  `isBuiltinImport` performs an `os.Stat` against
  `GOROOT/src`, i.e. a filesystem lookup; it is modelled as an injected
  oracle `isBuiltin : String → Bool`, as the design notes suggest.
* Go `strings.HasPrefix` / `strings.Contains` are modelled on the
  character lists of the strings (`goStartsWith`, `goContains`).  Note
  that in Go the empty string is a valid HasPrefix argument and matches
  every string; the list model has the same behaviour.
* Line numbers are modelled as `Nat`: the parser only produces
  nonnegative line numbers and the code only adds small constants.
-/

namespace GoGroupImports

/-- Mirror of the Go `Settings` struct. -/
structure Settings where
  SelfModule : String
  InternalPrivateDomains : List String
deriving DecidableEq

/-- One import spec as handed over by the parser: unquoted path plus the
1-based start and end lines of the spec. -/
structure ImportRecord where
  path : String
  startLine : Nat
  endLine : Nat
deriving DecidableEq

/-- Mirror of the Go `ImportGroup` struct. -/
structure ImportGroup where
  startLine : Nat
  endLine : Nat
  importType : String
deriving DecidableEq

/-- Model of Go `strings.HasPrefix s p` via the character lists. -/
def goStartsWith (s p : String) : Bool :=
  p.toList.isPrefixOf s.toList

/-- Containment of one character list in another: `sub` occurs contiguously
somewhere in the second list. -/
def infixOfChars (sub : List Char) : List Char → Bool
  | [] => sub.isEmpty
  | a :: as => sub.isPrefixOf (a :: as) || infixOfChars sub as

/-- Model of Go `strings.Contains s sub` via the character lists. -/
def goContains (s sub : String) : Bool :=
  infixOfChars sub.toList s.toList

/-- Translation of `isInternalPrivateImport`: does the path contain any of
the configured internal-private domains? -/
def isInternalPrivateImport (path : String) (settings : Settings) : Bool :=
  settings.InternalPrivateDomains.any (fun domain => goContains path domain)

/-- Translation of `getImportType`.  The `os.Stat`-backed builtin lookup is
the injected oracle `isBuiltin`. -/
def getImportType (isBuiltin : String → Bool) (path : String) (settings : Settings) : String :=
  if isInternalPrivateImport path settings then
    "internal_private"
  else if goStartsWith path settings.SelfModule then
    "own_module"
  else if isBuiltin path then
    "builtin"
  else
    "public_open_source_or_third_party"

/-- Loop body of `getImportGroups`: the open accumulating group `cur` is
extended while the classified type of the next record matches, and flushed
to the output when it changes. -/
def groupAppend (cls : String → String) (cur : ImportGroup) : List ImportRecord → List ImportGroup
  | [] => [cur]
  | r :: rs =>
    if cls r.path = cur.importType then
      groupAppend cls { cur with endLine := r.endLine } rs
    else
      cur :: groupAppend cls ⟨r.startLine, r.endLine, cls r.path⟩ rs

/-- Translation of `getImportGroups`, over the flat record sequence the AST
walk produces and a classifier function `cls`. -/
def getImportGroupsBy (cls : String → String) : List ImportRecord → List ImportGroup
  | [] => []
  | r :: rs => groupAppend cls ⟨r.startLine, r.endLine, cls r.path⟩ rs

/-- Full `getImportGroups`: the classifier is `getImportType` with the
given builtin oracle and settings. -/
def getImportGroups (isBuiltin : String → Bool) (settings : Settings)
    (records : List ImportRecord) : List ImportGroup :=
  getImportGroupsBy (fun p => getImportType isBuiltin p settings) records

/-- The canonical type sequence hard-coded in `areImportsGrouped`. -/
def expectedSequence : List String :=
  ["builtin", "public_open_source_or_third_party", "internal_private", "own_module"]

/-- Loop of `areImportsGrouped`, carrying the running index `i`: a group at
index `i` is compared against `expectedSequence` only while
`i < expectedSequence.length`; later groups are never compared. -/
def seqCheckFrom (i : Nat) : List ImportGroup → Bool
  | [] => true
  | g :: gs =>
    (match expectedSequence.get? i with
     | some e => g.importType == e
     | none => true) && seqCheckFrom (i + 1) gs

/-- Translation of `areImportsGrouped`. -/
def areImportsGrouped (groups : List ImportGroup) : Bool :=
  seqCheckFrom 0 groups

/-- Translation of the spacing loop in `Run` (lines 50–54): walk adjacent
pairs in order and report the start line of the first group that is not
exactly one blank line after its predecessor. -/
def spacingViolation : List ImportGroup → Option Nat
  | [] => none
  | [_] => none
  | g₁ :: g₂ :: rest =>
    if g₂.startLine = g₁.endLine + 2 then spacingViolation (g₂ :: rest)
    else some g₂.startLine

/-- Outcome of one `Run` invocation.  `fatal` models `log.Fatalf`, which
exits the process without returning to the caller; `err` models returning
a non-nil error value; `ok` models the nil return. -/
inductive RunResult where
  | fatal (msg : String)
  | err (msg : String)
  | ok
deriving DecidableEq

/-- True exactly when the outcome hands control back to the caller (a value
is returned); `log.Fatalf` does not. -/
def returnsToCaller : RunResult → Bool
  | RunResult.fatal _ => false
  | _ => true

/-- Translation of `Run` after settings decoding: `parsed` is the external
parser's outcome (`none` when the file cannot be parsed, in which case the
source calls `log.Fatalf`).  The error strings are abbreviated forms of the
`fmt.Errorf` messages. -/
def Run (isBuiltin : String → Bool) (settings : Settings)
    (parsed : Option (List ImportRecord)) : RunResult :=
  match parsed with
  | none => RunResult.fatal "Failed to parse file"
  | some records =>
    let importGroups := getImportGroups isBuiltin settings records
    if ! areImportsGrouped importGroups then
      RunResult.err "Warning: Imports are not properly grouped"
    else
      match spacingViolation importGroups with
      | some line => RunResult.err ("Warning: Missing single line break before " ++ toString line)
      | none => RunResult.ok

/-- Specification-side regrouping, following the spec's words: the output
groups are exactly the maximal runs of consecutive records whose classified
type agrees; each group spans from the first record's start line to the
last record's end line of its run.  Used as the refinement target for
`getImportGroups`. -/
def groupRunsSpec (cls : String → String) : List ImportRecord → List ImportGroup
  | [] => []
  | r :: rs =>
    let run := rs.takeWhile (fun x => cls x.path == cls r.path)
    ⟨r.startLine, (run.getLastD r).endLine, cls r.path⟩ ::
      groupRunsSpec cls (rs.dropWhile (fun x => cls x.path == cls r.path))
termination_by l => l.length
decreasing_by
  simp only [List.length_cons]
  exact Nat.lt_succ_of_le (List.dropWhile_suffix _).sublist.length_le

/-- End line of the last record of `l`, or `d` when `l` is empty: the value
the accumulating group's `endLine` field holds after sweeping `l`. -/
def lastEndD (d : Nat) (l : List ImportRecord) : Nat :=
  l.foldl (fun _ r => r.endLine) d

/-- Helper: the empty string starts every string, exactly as Go's
`strings.HasPrefix(path, "")` does. -/
lemma goStartsWith_empty (path : String) : goStartsWith path "" = true := by
  show (("" : String).toList.isPrefixOf path.toList) = true
  rw [show ("" : String).toList = [] from rfl]
  simp [List.isPrefixOf]

/-- Helper: a configured domain that occurs in the path makes
`isInternalPrivateImport` true. -/
lemma isInternalPrivateImport_of_mem (path : String) (settings : Settings) (domain : String)
    (hd : domain ∈ settings.InternalPrivateDomains) (hc : goContains path domain = true) :
    isInternalPrivateImport path settings = true := by
  unfold isInternalPrivateImport
  rw [List.any_eq_true]
  exact ⟨domain, hd, hc⟩

/-- C8: the Classifier is total — for every path, oracle and configuration,
`getImportType` returns exactly one of the four category strings. -/
theorem c8_classifier_total (isBuiltin : String → Bool) (path : String) (settings : Settings) :
    getImportType isBuiltin path settings = "internal_private" ∨
    getImportType isBuiltin path settings = "own_module" ∨
    getImportType isBuiltin path settings = "builtin" ∨
    getImportType isBuiltin path settings = "public_open_source_or_third_party" := by
  unfold getImportType
  split_ifs <;> simp

/-- C5: a path that contains a configured internal-private domain and also
starts with the own-module string is classified `internal_private`: the
domain check precedes the own-module check. -/
theorem c5_internal_private_precedence (isBuiltin : String → Bool) (path : String)
    (settings : Settings) (domain : String)
    (hd : domain ∈ settings.InternalPrivateDomains)
    (hc : goContains path domain = true)
    (hp : goStartsWith path settings.SelfModule = true) :
    getImportType isBuiltin path settings = "internal_private" := by
  have h1 := isInternalPrivateImport_of_mem path settings domain hd hc
  simp [getImportType, h1]

/-- Witness for C5 at a concrete path that matches both the domain and the
own-module string. -/
theorem c5_internal_private_precedence_witness :
    getImportType (fun _ => false) "corp.internal/pkg/a" ⟨"corp.internal", ["corp.internal"]⟩ =
      "internal_private" :=
  c5_internal_private_precedence (fun _ => false) "corp.internal/pkg/a"
    ⟨"corp.internal", ["corp.internal"]⟩ "corp.internal" (by simp) (by decide) (by decide)

/-- C2 counterexample: with an empty `selfModule` and no internal-private
domains, the path `"fmt"` (which contains no domain string) is classified
`own_module`, because Go's `strings.HasPrefix(path, "")` is true for every
path.  The claim says such a path is never classified `own_module`. -/
theorem c2_empty_module_counterexample :
    getImportType (fun _ => false) "fmt" ⟨"", []⟩ = "own_module" := by decide

/-- C2 amended: when `selfModule` is empty, the empty string matches every
path, so every path that is not internal-private is classified `own_module`
(the builtin and third-party branches are unreachable). -/
theorem c2_empty_module_amended (isBuiltin : String → Bool) (path : String) (settings : Settings)
    (hempty : settings.SelfModule = "")
    (hpriv : isInternalPrivateImport path settings = false) :
    getImportType isBuiltin path settings = "own_module" := by
  have h0 : goStartsWith path settings.SelfModule = true := by
    rw [hempty]; exact goStartsWith_empty path
  simp [getImportType, hpriv, h0]

/-- Witness for the amended C2 at the concrete path `"os"`. -/
theorem c2_empty_module_witness :
    getImportType (fun _ => false) "os" ⟨"", []⟩ = "own_module" :=
  c2_empty_module_amended (fun _ => false) "os" ⟨"", []⟩ rfl (by decide)

/-- C1 counterexample: a sequence with exactly one group whose category is
third-party fails `areImportsGrouped`, because position 0 is compared
against `"builtin"`.  The claim says a single group passes both checks
regardless of its category. -/
theorem c1_single_group_counterexample :
    areImportsGrouped [⟨1, 1, "public_open_source_or_third_party"⟩] = false := by decide

/-- C1 amended: a single-group sequence always passes the spacing check,
and it passes the sequence check exactly when its category is `builtin`
(position 0 of the canonical sequence). -/
theorem c1_single_group_amended (g : ImportGroup) :
    spacingViolation [g] = none ∧
      (areImportsGrouped [g] = true ↔ g.importType = "builtin") := by
  refine ⟨rfl, ?_⟩
  simp [areImportsGrouped, seqCheckFrom, expectedSequence]

/-- C6 counterexample: on a parse failure the source calls `log.Fatalf`,
modelled as the `fatal` outcome, which does not return control to the
caller — refuting the claim that a `ParseFailure` is surfaced as a
returned value and the process is never aborted. -/
theorem c6_parse_counterexample :
    Run (fun _ => false) ⟨"", []⟩ none = RunResult.fatal "Failed to parse file" ∧
      returnsToCaller (Run (fun _ => false) ⟨"", []⟩ none) = false :=
  ⟨rfl, rfl⟩

/-- C6 amended: for every oracle and configuration, a parse failure makes
`Run` abort the process via `log.Fatalf` (the non-returning `fatal`
outcome); the grouping and spacing checks are not reached. -/
theorem c6_parse_amended (isBuiltin : String → Bool) (settings : Settings) :
    Run isBuiltin settings none = RunResult.fatal "Failed to parse file" ∧
      returnsToCaller (Run isBuiltin settings none) = false :=
  ⟨rfl, rfl⟩

/-- Helper: from index 4 on, the comparison loop never fails, because the
canonical sequence has only four entries. -/
lemma seqCheckFrom_high (gs : List ImportGroup) : ∀ i : Nat, 4 ≤ i → seqCheckFrom i gs = true := by
  induction gs with
  | nil => intro i _; rfl
  | cons g tl ih =>
    intro i hi
    have hnone : expectedSequence.get? i = none := by
      rw [List.get?_eq_none]
      simpa [expectedSequence] using hi
    rw [seqCheckFrom, hnone, ih (i + 1) (by omega)]
    rfl

/-- Helper: the comparison loop splits over list concatenation, with the
index shifted by the length of the first part. -/
lemma seqCheckFrom_append (gs₁ gs₂ : List ImportGroup) :
    ∀ i : Nat, seqCheckFrom i (gs₁ ++ gs₂) =
      (seqCheckFrom i gs₁ && seqCheckFrom (i + gs₁.length) gs₂) := by
  induction gs₁ with
  | nil => intro i; simp [seqCheckFrom]
  | cons g tl ih =>
    intro i
    simp only [List.cons_append, seqCheckFrom, List.append_eq, List.length_cons,
      Bool.and_assoc, ih (i + 1)]
    rw [show i + 1 + tl.length = i + (tl.length + 1) from by omega]

/-- C9: the sequence check's verdict is determined by the first four groups
(its value on any list equals its value on the 4-element leading part), and
appending further groups to a list that already has four never changes the
verdict. -/
theorem c9_first_four_only :
    (∀ gs : List ImportGroup, areImportsGrouped gs = areImportsGrouped (gs.take 4)) ∧
    (∀ gs extra : List ImportGroup, 4 ≤ gs.length →
      areImportsGrouped (gs ++ extra) = areImportsGrouped gs) := by
  have happ : ∀ gs extra : List ImportGroup, 4 ≤ gs.length →
      areImportsGrouped (gs ++ extra) = areImportsGrouped gs := by
    intro gs extra h
    unfold areImportsGrouped
    rw [seqCheckFrom_append, seqCheckFrom_high extra (0 + gs.length) (by omega), Bool.and_true]
  refine ⟨?_, happ⟩
  intro gs
  by_cases h : 4 ≤ gs.length
  · have htake : 4 ≤ (gs.take 4).length := by
      rw [List.length_take]
      omega
    conv_lhs => rw [← List.take_append_drop 4 gs]
    exact happ _ _ htake
  · rw [List.take_of_length_le (by omega)]

/-- Witness for C9: appending a fifth group to a correctly ordered
four-group list does not change the verdict. -/
theorem c9_first_four_only_witness :
    areImportsGrouped
        ([⟨1, 1, "builtin"⟩, ⟨3, 3, "public_open_source_or_third_party"⟩,
          ⟨5, 5, "internal_private"⟩, ⟨7, 7, "own_module"⟩] ++ [⟨9, 9, "builtin"⟩]) =
      areImportsGrouped
        [⟨1, 1, "builtin"⟩, ⟨3, 3, "public_open_source_or_third_party"⟩,
         ⟨5, 5, "internal_private"⟩, ⟨7, 7, "own_module"⟩] :=
  c9_first_four_only.2 _ _ (by decide)

/-- Helper: when the comparison loop starting at index `i` succeeds, every
group at offset `j` whose canonical slot `i + j` exists matches that slot. -/
lemma seqCheckFrom_get (gs : List ImportGroup) : ∀ i : Nat, seqCheckFrom i gs = true →
    ∀ (j : Nat) (g : ImportGroup) (e : String), gs.get? j = some g →
      expectedSequence.get? (i + j) = some e → g.importType = e := by
  induction gs with
  | nil => intro i _ j g e hg _; simp at hg
  | cons g₀ tl ih =>
    intro i h j g e hg he
    rw [seqCheckFrom, Bool.and_eq_true] at h
    obtain ⟨h₁, h₂⟩ := h
    cases j with
    | zero =>
      simp only [List.get?_cons_zero, Option.some.injEq] at hg
      subst hg
      rw [Nat.add_zero] at he
      rw [he] at h₁
      simpa using h₁
    | succ j =>
      simp only [List.get?_cons_succ] at hg
      rw [show i + (j + 1) = (i + 1) + j from by omega] at he
      exact ih (i + 1) h₂ j g e hg he

/-- Helper: distinct slots of the canonical sequence hold distinct entries. -/
lemma expectedSequence_get_ne :
    ∀ i, i < 4 → ∀ k, k < 4 → i ≠ k →
      expectedSequence.get? i ≠ expectedSequence.get? k := by decide

/-- C3 counterexample: `builtin` appears at position 0, a different
category intervenes, and `builtin` reappears at position 4 — yet the
sequence check passes, because groups from position 4 on are never
compared.  The claim says every such sequence fails. -/
theorem c3_reappear_counterexample :
    areImportsGrouped
        [⟨1, 1, "builtin"⟩, ⟨3, 3, "public_open_source_or_third_party"⟩,
         ⟨5, 5, "internal_private"⟩, ⟨7, 7, "own_module"⟩, ⟨9, 9, "builtin"⟩] = true := by
  decide

/-- C3 amended: a category that appears, is interrupted by a different
category, and reappears makes the sequence check fail, provided the
reappearance happens within the first four positions (positions from 4 on
are never compared). -/
theorem c3_reappear_amended (gs : List ImportGroup) (i j k : Nat)
    (hij : i < j) (hjk : j < k) (hk : k < gs.length) (hk4 : k < 4)
    (hdiff : (gs.get ⟨j, by omega⟩).importType ≠ (gs.get ⟨i, by omega⟩).importType)
    (hsame : (gs.get ⟨i, by omega⟩).importType = (gs.get ⟨k, hk⟩).importType) :
    areImportsGrouped gs = false := by
  cases h : areImportsGrouped gs with
  | false => rfl
  | true =>
    exfalso
    unfold areImportsGrouped at h
    have hlen : expectedSequence.length = 4 := rfl
    have hil : i < gs.length := by omega
    have hi' : i < expectedSequence.length := by omega
    have hk' : k < expectedSequence.length := by omega
    have hgi := seqCheckFrom_get gs 0 h i (gs.get ⟨i, hil⟩) (expectedSequence.get ⟨i, hi'⟩)
      (List.get?_eq_get hil) (by rw [Nat.zero_add]; exact List.get?_eq_get hi')
    have hgk := seqCheckFrom_get gs 0 h k (gs.get ⟨k, hk⟩) (expectedSequence.get ⟨k, hk'⟩)
      (List.get?_eq_get hk) (by rw [Nat.zero_add]; exact List.get?_eq_get hk')
    have heq : expectedSequence.get ⟨i, hi'⟩ = expectedSequence.get ⟨k, hk'⟩ := by
      rw [← hgi, ← hgk]
      exact hsame
    refine expectedSequence_get_ne i (by omega) k hk4 (by omega) ?_
    rw [List.get?_eq_get hi', List.get?_eq_get hk', heq]

/-- Witness for the amended C3: `builtin, third-party, builtin` with the
reappearance at position 2 fails the check. -/
theorem c3_reappear_witness :
    areImportsGrouped
        [⟨1, 1, "builtin"⟩, ⟨3, 3, "public_open_source_or_third_party"⟩,
         ⟨5, 5, "builtin"⟩] = false :=
  c3_reappear_amended
    [⟨1, 1, "builtin"⟩, ⟨3, 3, "public_open_source_or_third_party"⟩, ⟨5, 5, "builtin"⟩]
    0 1 2 (by decide) (by decide) (by decide) (by decide) (by decide) (by decide)

/-- C4: the spacing loop succeeds exactly when every adjacent pair of
groups satisfies `startLine = endLine + 2` (exactly one blank line); when
it fails, the reported line is the start line of a group that is not
exactly one blank line after its predecessor. -/
theorem c4_spacing_check (groups : List ImportGroup) :
    (spacingViolation groups = none ↔
      List.Chain' (fun a b => b.startLine = a.endLine + 2) groups) ∧
    (∀ b : Nat, spacingViolation groups = some b →
      ∃ pre g₁ g₂ post, groups = pre ++ g₁ :: g₂ :: post ∧ b = g₂.startLine ∧
        g₂.startLine ≠ g₁.endLine + 2) := by
  induction groups with
  | nil =>
    refine ⟨by simp [spacingViolation], ?_⟩
    intro b hb
    simp [spacingViolation] at hb
  | cons g₁ tl ih =>
    cases tl with
    | nil =>
      refine ⟨by simp [spacingViolation], ?_⟩
      intro b hb
      simp [spacingViolation] at hb
    | cons g₂ rest =>
      constructor
      · rw [List.chain'_cons, spacingViolation]
        by_cases hc : g₂.startLine = g₁.endLine + 2
        · rw [if_pos hc]
          simp [hc, ih.1]
        · rw [if_neg hc]
          simp [hc]
      · intro b hb
        rw [spacingViolation] at hb
        by_cases hc : g₂.startLine = g₁.endLine + 2
        · rw [if_pos hc] at hb
          obtain ⟨pre, ga, gb, post, heq, hbeq, hne⟩ := ih.2 b hb
          exact ⟨g₁ :: pre, ga, gb, post, by rw [List.cons_append, heq], hbeq, hne⟩
        · rw [if_neg hc] at hb
          obtain rfl : b = g₂.startLine := by
            simpa using hb.symm
          exact ⟨[], g₁, g₂, rest, rfl, rfl, hc⟩

/-- Witness for C4: groups on lines 1–2 and 3–4 have zero blank lines
between them, and the violation is reported before line 3. -/
theorem c4_spacing_check_witness :
    spacingViolation
        [⟨1, 2, "builtin"⟩, ⟨3, 4, "public_open_source_or_third_party"⟩] = some 3 ∧
      ∃ pre g₁ g₂ post,
        ([⟨1, 2, "builtin"⟩, ⟨3, 4, "public_open_source_or_third_party"⟩] :
            List ImportGroup) = pre ++ g₁ :: g₂ :: post ∧
          (3 : Nat) = g₂.startLine ∧ g₂.startLine ≠ g₁.endLine + 2 :=
  ⟨by decide,
   (c4_spacing_check
       [⟨1, 2, "builtin"⟩, ⟨3, 4, "public_open_source_or_third_party"⟩]).2 3 (by decide)⟩

/-- Helper: `lastEndD` of the empty list is the default. -/
lemma lastEndD_nil (d : Nat) : lastEndD d [] = d := rfl

/-- Helper: `lastEndD` over a cons steps to the head's end line. -/
lemma lastEndD_cons (d : Nat) (x : ImportRecord) (xs : List ImportRecord) :
    lastEndD d (x :: xs) = lastEndD x.endLine xs := rfl

/-- Helper: `lastEndD` seeded with a record's end line is the end line of
the last record, with that record as the default. -/
lemma lastEndD_eq_getLastD (l : List ImportRecord) :
    ∀ r : ImportRecord, lastEndD r.endLine l = (l.getLastD r).endLine := by
  induction l with
  | nil => intro r; rfl
  | cons x xs ih =>
    intro r
    rw [lastEndD_cons, List.getLastD_cons]
    exact ih x

/-- Helper: closed form of the accumulating loop — the open group absorbs
the longest leading run of records of its own type, and the rest regroups
independently. -/
lemma groupAppend_eq (cls : String → String) (rs : List ImportRecord) :
    ∀ (s e : Nat) (t : String),
      groupAppend cls ⟨s, e, t⟩ rs =
        ⟨s, lastEndD e (rs.takeWhile (fun x => cls x.path == t)), t⟩ ::
          groupRunsSpec cls (rs.dropWhile (fun x => cls x.path == t)) := by
  induction rs with
  | nil =>
    intro s e t
    simp [groupAppend, groupRunsSpec, lastEndD]
  | cons r rs ih =>
    intro s e t
    by_cases hc : cls r.path = t
    · have hb : (cls r.path == t) = true := by simp [hc]
      simp only [groupAppend, if_pos hc, ih s r.endLine t,
        List.takeWhile_cons, List.dropWhile_cons, hb, lastEndD_cons]
      simp [lastEndD_cons]
    · have hb : (cls r.path == t) = false := by simp [hc]
      simp only [groupAppend, if_neg hc, ih r.startLine r.endLine (cls r.path)]
      conv_rhs =>
        rw [List.takeWhile_cons, List.dropWhile_cons]
      rw [hb]
      simp only [Bool.false_eq_true, if_false]
      conv_rhs => rw [groupRunsSpec]
      simp only [lastEndD_nil, lastEndD_eq_getLastD]

/-- Helper: the grouping loop refines the specification-side regrouping. -/
lemma getImportGroupsBy_eq_spec (cls : String → String) :
    ∀ records : List ImportRecord, getImportGroupsBy cls records = groupRunsSpec cls records := by
  intro records
  cases records with
  | nil =>
    rw [groupRunsSpec]
    rfl
  | cons r rs =>
    rw [getImportGroupsBy, groupAppend_eq cls rs r.startLine r.endLine (cls r.path)]
    conv_rhs => rw [groupRunsSpec]
    simp [lastEndD_eq_getLastD]

/-- C7: the Grouper's output is exactly the maximal runs of consecutive
same-category records in file order (`groupRunsSpec`), and the empty record
sequence yields the empty group sequence. -/
theorem c7_grouper_maximal_runs (isBuiltin : String → Bool) (settings : Settings)
    (records : List ImportRecord) :
    getImportGroups isBuiltin settings records =
      groupRunsSpec (fun p => getImportType isBuiltin p settings) records ∧
    getImportGroups isBuiltin settings [] = [] :=
  ⟨getImportGroupsBy_eq_spec _ records, rfl⟩

/-- Helper: the category sequence of the loop's output depends only on the
open group's type and the category sequence of the remaining records. -/
lemma groupAppend_map_importType (cls₁ cls₂ : String → String) :
    ∀ (rs₁ rs₂ : List ImportRecord) (c₁ c₂ : ImportGroup),
      c₁.importType = c₂.importType →
      rs₁.map (fun r => cls₁ r.path) = rs₂.map (fun r => cls₂ r.path) →
      (groupAppend cls₁ c₁ rs₁).map ImportGroup.importType =
        (groupAppend cls₂ c₂ rs₂).map ImportGroup.importType := by
  intro rs₁
  induction rs₁ with
  | nil =>
    intro rs₂ c₁ c₂ hc hmap
    have h2 : rs₂ = [] := by simpa using hmap.symm
    subst h2
    simp [groupAppend, hc]
  | cons r₁ t₁ ih =>
    intro rs₂ c₁ c₂ hc hmap
    cases rs₂ with
    | nil => simp at hmap
    | cons r₂ t₂ =>
      simp only [List.map_cons, List.cons.injEq] at hmap
      obtain ⟨hhead, htail⟩ := hmap
      simp only [groupAppend]
      by_cases h1 : cls₁ r₁.path = c₁.importType
      · have h2 : cls₂ r₂.path = c₂.importType := by rw [← hhead, ← hc]; exact h1
        rw [if_pos h1, if_pos h2]
        exact ih t₂ _ _ (by simpa using hc) htail
      · have h2 : ¬ cls₂ r₂.path = c₂.importType := by rw [← hhead, ← hc]; exact h1
        rw [if_neg h1, if_neg h2]
        simp only [List.map_cons]
        rw [hc]
        exact congrArg _ (ih t₂ _ _ (by simpa using hhead) htail)

/-- C10: group boundaries depend only on the classified categories, never
on line distances — two record sequences with the same category sequence
produce groups with the same category sequence; and two adjacent records of
the same category always form a single group whatever their line numbers,
so the spacing check sees no boundary (and hence no gap) between them. -/
theorem c10_category_boundaries :
    (∀ (isBuiltin : String → Bool) (settings : Settings) (l₁ l₂ : List ImportRecord),
      l₁.map (fun r => getImportType isBuiltin r.path settings) =
        l₂.map (fun r => getImportType isBuiltin r.path settings) →
      (getImportGroups isBuiltin settings l₁).map ImportGroup.importType =
        (getImportGroups isBuiltin settings l₂).map ImportGroup.importType) ∧
    (∀ (isBuiltin : String → Bool) (settings : Settings) (a b : ImportRecord),
      getImportType isBuiltin a.path settings = getImportType isBuiltin b.path settings →
      getImportGroups isBuiltin settings [a, b] =
        [⟨a.startLine, b.endLine, getImportType isBuiltin a.path settings⟩] ∧
      spacingViolation (getImportGroups isBuiltin settings [a, b]) = none) := by
  constructor
  · intro isB s l₁ l₂ hmap
    cases l₁ with
    | nil =>
      have h2 : l₂ = [] := by simpa using hmap.symm
      subst h2
      rfl
    | cons r₁ t₁ =>
      cases l₂ with
      | nil => simp at hmap
      | cons r₂ t₂ =>
        simp only [List.map_cons, List.cons.injEq] at hmap
        unfold getImportGroups getImportGroupsBy
        exact groupAppend_map_importType _ _ t₁ t₂ _ _ (by simpa using hmap.1) hmap.2
  · intro isB s a b hab
    have h1 : getImportGroups isB s [a, b] =
        [⟨a.startLine, b.endLine, getImportType isB a.path s⟩] := by
      unfold getImportGroups getImportGroupsBy
      simp only [groupAppend, if_pos hab.symm]
    exact ⟨h1, by rw [h1]; rfl⟩

/-- Witness for C10: same path classified identically on far-apart lines,
and two same-category records 99 lines apart still form one group with no
spacing violation. -/
theorem c10_category_boundaries_witness :
    ((getImportGroups (fun _ => false) ⟨"", []⟩ [⟨"fmt", 1, 1⟩]).map ImportGroup.importType =
      (getImportGroups (fun _ => false) ⟨"", []⟩ [⟨"fmt", 50, 50⟩]).map ImportGroup.importType) ∧
    (getImportGroups (fun _ => false) ⟨"", []⟩ [⟨"fmt", 1, 1⟩, ⟨"os", 100, 100⟩] =
        [⟨1, 100, "own_module"⟩] ∧
      spacingViolation
        (getImportGroups (fun _ => false) ⟨"", []⟩ [⟨"fmt", 1, 1⟩, ⟨"os", 100, 100⟩]) = none) :=
  ⟨c10_category_boundaries.1 (fun _ => false) ⟨"", []⟩ [⟨"fmt", 1, 1⟩] [⟨"fmt", 50, 50⟩]
      (by decide),
   c10_category_boundaries.2 (fun _ => false) ⟨"", []⟩ ⟨"fmt", 1, 1⟩ ⟨"os", 100, 100⟩ (by decide)⟩

end GoGroupImports
